import Mathlib

/-!
Verification of the write-back / write-allocate LRU cache simulator.

This file gives a shallow embedding of the simulator core (cache.h / cache.c,
with the argument validator from main.c) and proves properties about it.

Modelling conventions:
* C `int` and `unsigned long` values are modelled as `Nat`.  All quantities
  handled by the simulator under defined C behaviour are non-negative, and the
  argument validator rejects non-positive inputs, so `Nat` is faithful on the
  domain the program defines.  The one place where the 32-bit width of `int`
  is observable is `extract_tag_number`, which converts a shifted 64-bit
  `unsigned long` into an `int` return value; there the truncation to the low
  32 bits is modelled explicitly (`% 2 ^ 32`).  Stored tags are only ever
  compared for equality, and equality of the two's-complement `int` patterns
  is exactly equality of the low-32-bit `Nat` values.
* The C arrays `Cache.sets` and `CacheSet.lines` are modelled as total
  functions from `Nat`; the numbers of meaningful entries are the struct
  fields `num_sets` and `associativity`, exactly as in the C code.  The
  simulator never reads an index it has not either initialised or bounded by
  those fields, so entries beyond them are inert.
* `exit(EXIT_FAILURE)` in `access_cache` (the set-index range check) is
  modelled as `Except.error ()`: the run stops with a signal distinct from
  any hit/miss result.
-/

namespace CacheSim

/-- Cache statistics (struct CacheStats): hits, misses, dirty write-backs. -/
structure CacheStats where
  hits : Nat
  misses : Nat
  dirty_write_backs : Nat
deriving DecidableEq

/-- One cache line (struct CacheLine). -/
structure CacheLine where
  tag : Nat
  is_valid : Bool
  is_dirty : Bool
  lru_order : Nat
deriving DecidableEq

/-- One cache set (struct CacheSet): its array of lines, modelled as a total
function; the meaningful indices are `0 .. associativity - 1`. -/
structure CacheSet where
  lines : Nat → CacheLine

/-- The cache (struct Cache). `sets` is the array of cache sets, modelled as
a total function; the meaningful indices are `0 .. num_sets - 1`. -/
structure Cache where
  associativity : Nat
  cache_size : Nat
  line_size : Nat
  miss_penalty : Nat
  dirty_wb_penalty : Nat
  num_sets : Nat
  sets : Nat → CacheSet
  stats : CacheStats
  log_line_size : Nat
  log_num_sets : Nat

/-- A cache operation (struct CacheOp): access type is a character,
`'l'` for loads and `'s'` for stores. -/
structure CacheOp where
  access_type : Char
  address : Nat
  instructions : Nat

/-- The loop of the utility function `log2` from cache.c, with explicit fuel
(the loop halves its argument, so `n` itself is always enough fuel). -/
def log2_go : Nat → Nat → Nat
  | 0, _ => 0
  | fuel + 1, n => if 2 ≤ n then log2_go fuel (n / 2) + 1 else 0

/-- The utility function `log2` from cache.c: shifts `n` right until it
becomes zero, counting the shifts.  Computes the floor of log2 for `n ≥ 1`. -/
def log2 (n : Nat) : Nat :=
  log2_go n n

/-- The line initialisation of `initialize_cache_lines`: tag 0, invalid,
clean, and `lru_order` equal to the line index. -/
def initialize_cache_lines (j : Nat) : CacheLine :=
  { tag := 0, is_valid := false, is_dirty := false, lru_order := j }

/-- The common tail of `initialize_cache`: fill in the struct fields, compute
the logarithms, allocate the sets and initialise every line
(`allocate_cache_memory` + `initialize_cache_lines`).  Factored out so that
geometries given directly by `(ways, num_sets, line_size)` - the spec's
byte-denominated construction interface - can be instantiated as well. -/
def mk_cache (associativity cache_size line_size miss_penalty dirty_wb_penalty num_sets : Nat) :
    Cache :=
  { associativity := associativity
    cache_size := cache_size
    line_size := line_size
    miss_penalty := miss_penalty
    dirty_wb_penalty := dirty_wb_penalty
    num_sets := num_sets
    sets := fun _ => ⟨fun j => initialize_cache_lines j⟩
    stats := ⟨0, 0, 0⟩
    log_line_size := log2 line_size
    log_num_sets := log2 num_sets }

/-- `initialize_cache` from cache.c.  `cache_size` is in kilobytes, hence the
`* 1024`.  Associativity 0 selects a fully associative cache, 1 a
direct-mapped cache, anything else an `associativity`-way set-associative
cache. -/
def initialize_cache (associativity cache_size line_size miss_penalty dirty_wb_penalty : Nat) :
    Cache :=
  if associativity = 0 then
    mk_cache (cache_size * 1024 / line_size) cache_size line_size miss_penalty dirty_wb_penalty 1
  else if associativity = 1 then
    mk_cache 1 cache_size line_size miss_penalty dirty_wb_penalty (cache_size * 1024 / line_size)
  else
    mk_cache associativity cache_size line_size miss_penalty dirty_wb_penalty
      (cache_size * 1024 / (line_size * associativity))

/-- `is_pow2` from main.c: `n > 0 && (n & (n - 1)) == 0`. -/
def is_pow2 (n : Nat) : Bool :=
  decide (0 < n) && decide (n &&& (n - 1) = 0)

/-- `validate_args` from main.c.  On `Nat` the first check only rejects the
zero values (negative C ints cannot arise from a defined-behaviour run that
reaches `initialize_cache`, because this validator rejects them). -/
def validate_args (associativity line_size cache_size miss_penalty dirty_wb_penalty : Nat) :
    Bool :=
  if line_size = 0 ∨ cache_size = 0 ∨ miss_penalty = 0 ∨ dirty_wb_penalty = 0 then false
  else if associativity ≠ 0 ∧ associativity ≠ 1 ∧ ¬is_pow2 associativity then false
  else if ¬is_pow2 line_size ∨ ¬is_pow2 cache_size then false
  else if cache_size * 1024 < line_size then false
  else if cache_size * 1024 % line_size ≠ 0 then false
  else if cache_size * 1024 / line_size < associativity then false
  else true

/-- `extract_set_index` from cache.c. -/
def extract_set_index (address : Nat) (cache : Cache) : Nat :=
  if cache.num_sets = 1 then 0
  else (address >>> cache.log_line_size) &&& ((1 <<< cache.log_num_sets) - 1)

/-- `extract_tag_number` from cache.c.  The C function shifts the 64-bit
`unsigned long` address and returns the result as a 32-bit `int`; the
truncation to the low 32 bits of the shifted value is modelled explicitly. -/
def extract_tag_number (address : Nat) (cache : Cache) : Nat :=
  (address >>> (cache.log_line_size + cache.log_num_sets)) % 2 ^ 32

/-- Overwrite one line of one set, leaving everything else unchanged
(a single C array store `cache->sets[set_index].lines[line_index] = line`). -/
def set_line (cache : Cache) (set_index line_index : Nat) (line : CacheLine) : Cache :=
  { cache with
    sets := fun s =>
      if s = set_index then
        ⟨fun i => if i = line_index then line else (cache.sets s).lines i⟩
      else cache.sets s }

/-- `update_lru_order` from cache.c: every line of the set whose `lru_order`
is below the accessed line's previous order is incremented (the loop runs
over the `associativity` lines of the set), then the accessed line's order
is set to 0 (most recently used). -/
def update_lru_order (cache : Cache) (set_index line_index : Nat) : Cache :=
  let lines := (cache.sets set_index).lines
  let target_order := (lines line_index).lru_order
  { cache with
    sets := fun s =>
      if s = set_index then
        ⟨fun i =>
          if i = line_index then { lines i with lru_order := 0 }
          else if i < cache.associativity ∧ (lines i).lru_order < target_order then
            { lines i with lru_order := (lines i).lru_order + 1 }
          else lines i⟩
      else cache.sets s }

/-- The scan loop of `find_lru_line_index`, written with explicit fuel:
`find_lru_go lines fuel i max_order lru_index` runs the C loop body for
indices `i, i+1, ..., i+fuel-1`, returning the first invalid index
immediately, and otherwise the index of the first strict maximum of
`lru_order` (accumulators start at `max_order = 0`, `lru_index = 0`). -/
def find_lru_go (lines : Nat → CacheLine) : Nat → Nat → Nat → Nat → Nat
  | 0, _, _, lru_index => lru_index
  | fuel + 1, i, max_order, lru_index =>
    if (lines i).is_valid = false then i
    else if max_order < (lines i).lru_order then
      find_lru_go lines fuel (i + 1) (lines i).lru_order i
    else
      find_lru_go lines fuel (i + 1) max_order lru_index

/-- `find_lru_line_index` from cache.c: loop over the `associativity` lines
of the set. -/
def find_lru_line_index (cache : Cache) (set_index : Nat) : Nat :=
  find_lru_go (cache.sets set_index).lines cache.associativity 0 0 0

/-- The hit-scan of `is_cache_hit`: the first line index in the set (in index
order, among the `associativity` lines) that is valid and holds the tag. -/
def hit_index (cache : Cache) (set_index tag : Nat) : Option Nat :=
  (List.range cache.associativity).find? fun i =>
    ((cache.sets set_index).lines i).is_valid && ((cache.sets set_index).lines i).tag == tag

/-- `is_cache_hit` from cache.c.  On a hit: update the LRU order, set the
dirty bit if the operation is a store, increment the hit counter, return
`true`; otherwise return `false` with the cache unchanged. -/
def is_cache_hit (cache : Cache) (cache_op : CacheOp) (set_index tag : Nat) : Bool × Cache :=
  match hit_index cache set_index tag with
  | some i =>
    let cache₁ := update_lru_order cache set_index i
    let cache₂ :=
      if cache_op.access_type == 's' then
        set_line cache₁ set_index i { (cache₁.sets set_index).lines i with is_dirty := true }
      else cache₁
    (true, { cache₂ with stats := { cache₂.stats with hits := cache₂.stats.hits + 1 } })
  | none => (false, cache)

/-- `handle_cache_miss` from cache.c: count the miss, pick the victim via
`find_lru_line_index`, count a dirty write-back if the victim is dirty,
overwrite the victim with the new tag (valid, dirty iff the operation is a
store, LRU order untouched by the overwrite), then update the LRU order. -/
def handle_cache_miss (cache : Cache) (cache_op : CacheOp) (set_index tag : Nat) : Cache :=
  let cache₁ := { cache with stats := { cache.stats with misses := cache.stats.misses + 1 } }
  let lru_index := find_lru_line_index cache₁ set_index
  let lru_line := (cache₁.sets set_index).lines lru_index
  let cache₂ :=
    if lru_line.is_dirty then
      { cache₁ with
        stats := { cache₁.stats with dirty_write_backs := cache₁.stats.dirty_write_backs + 1 } }
    else cache₁
  let cache₃ := set_line cache₂ set_index lru_index
    { tag := tag, is_valid := true, is_dirty := cache_op.access_type == 's',
      lru_order := lru_line.lru_order }
  update_lru_order cache₃ set_index lru_index

/-- The state produced by the hit path of `is_cache_hit` (LRU update, dirty
bit on a store, hit counter), with the store test passed as a Boolean;
`is_cache_hit` is proved to produce exactly this state on a hit.  Used to
destructure the hit path in proofs. -/
def hit_state (cache : Cache) (store : Bool) (set_index i : Nat) : Cache :=
  let cache₁ := update_lru_order cache set_index i
  let cache₂ :=
    if store then
      set_line cache₁ set_index i { (cache₁.sets set_index).lines i with is_dirty := true }
    else cache₁
  { cache₂ with stats := { cache₂.stats with hits := cache₂.stats.hits + 1 } }

/-- The state produced by `handle_cache_miss`, with the store test passed as
a Boolean; `handle_cache_miss` is proved to produce exactly this state
(definitionally: `find_lru_line_index` and the victim line do not depend on
the statistics field updated first in the source).  Used to destructure the
miss path in proofs. -/
def miss_state (cache : Cache) (store : Bool) (set_index tag : Nat) : Cache :=
  let lru_index := find_lru_line_index cache set_index
  let lru_line := (cache.sets set_index).lines lru_index
  let cache₁ := { cache with stats := { cache.stats with misses := cache.stats.misses + 1 } }
  let cache₂ :=
    if lru_line.is_dirty then
      { cache₁ with
        stats := { cache₁.stats with dirty_write_backs := cache₁.stats.dirty_write_backs + 1 } }
    else cache₁
  let cache₃ := set_line cache₂ set_index lru_index
    { tag := tag, is_valid := true, is_dirty := store, lru_order := lru_line.lru_order }
  update_lru_order cache₃ set_index lru_index

/-- `access_cache` from cache.c.  The range check `set_index > num_sets`
(note: strict, exactly as in the source) aborts the program, modelled as
`Except.error ()`. -/
def access_cache (cache : Cache) (cache_op : CacheOp) : Except Unit (Bool × Cache) :=
  let set_index := extract_set_index cache_op.address cache
  if cache.num_sets < set_index then Except.error ()
  else
    let tag := extract_tag_number cache_op.address cache
    match is_cache_hit cache cache_op set_index tag with
    | (true, cache₁) => Except.ok (true, cache₁)
    | (false, cache₁) => Except.ok (false, handle_cache_miss cache₁ cache_op set_index tag)

/-- `get_cache_hits` from cache.c. -/
def get_cache_hits (cache : Cache) : Nat := cache.stats.hits

/-- `get_cache_misses` from cache.c. -/
def get_cache_misses (cache : Cache) : Nat := cache.stats.misses

/-- `get_dirty_write_backs` from cache.c. -/
def get_dirty_write_backs (cache : Cache) : Nat := cache.stats.dirty_write_backs

/-- The access-replay loop of `simulate_cache` / `process_trace_line`,
restricted to the engine state: feed the operations to `access_cache` one at
a time, stopping if the range check aborts. -/
def simulate_cache (cache : Cache) : List CacheOp → Except Unit Cache
  | [] => Except.ok cache
  | op :: ops =>
    match access_cache cache op with
    | Except.error e => Except.error e
    | Except.ok (_, cache₁) => simulate_cache cache₁ ops

/-- The engine state after one access (the state component of `access_cache`,
with the error case mapped to the unchanged state).  Used to name concrete
intermediate states. -/
def engine_after (cache : Cache) (cache_op : CacheOp) : Cache :=
  match access_cache cache cache_op with
  | Except.ok (_, cache₁) => cache₁
  | Except.error _ => cache

/-- The list of hit/miss outcomes (`true` = hit) produced by replaying a list
of operations through `access_cache`. -/
def access_results (cache : Cache) : List CacheOp → Except Unit (List Bool)
  | [] => Except.ok []
  | op :: ops =>
    match access_cache cache op with
    | Except.error e => Except.error e
    | Except.ok (r, cache₁) =>
      match access_results cache₁ ops with
      | Except.error e => Except.error e
      | Except.ok rs => Except.ok (r :: rs)

/-- Ghost instrumentation for the stored-while-resident history: alongside
the cache we carry a flag per (set, line) recording whether the block
currently resident in that line has been the target of a store since it was
filled.  `stored_update` advances the flags for one access of `access_cache`
on `cache`: on a hit the flag of the hit line is or-ed with "this access is a
store"; on a miss the victim's flag is reset to "this access is a store"
(write-allocate fill). -/
def stored_update (cache : Cache) (cache_op : CacheOp) (g : Nat → Nat → Bool) :
    Nat → Nat → Bool :=
  let σ := extract_set_index cache_op.address cache
  let τ := extract_tag_number cache_op.address cache
  match hit_index cache σ τ with
  | some i => fun s j => if s = σ ∧ j = i then g s j || (cache_op.access_type == 's') else g s j
  | none => fun s j =>
      if s = σ ∧ j = find_lru_line_index cache σ then cache_op.access_type == 's' else g s j

/-- The replay loop of `simulate_cache` carrying the ghost
stored-while-resident flags along. -/
def ghost_run (cache : Cache) (g : Nat → Nat → Bool) :
    List CacheOp → Except Unit (Cache × (Nat → Nat → Bool))
  | [] => Except.ok (cache, g)
  | op :: ops =>
    match access_cache cache op with
    | Except.error e => Except.error e
    | Except.ok (_, cache₁) => ghost_run cache₁ (stored_update cache op g) ops

/-- LRU structure invariant of one set of `n = associativity` lines: for some
`k`, the valid lines are exactly indices `0 .. k-1`, their recency ranks are
pairwise distinct values below `k`, and every still-invalid line `j ≥ k`
keeps its initial rank `j`. -/
def set_inv (lines : Nat → CacheLine) (n : Nat) : Prop :=
  ∃ k, k ≤ n ∧ (∀ j, j < n → (((lines j).is_valid = true) ↔ j < k)) ∧
    (∀ i, i < k → ∀ j, j < k → i ≠ j → (lines i).lru_order ≠ (lines j).lru_order) ∧
    (∀ j, j < k → (lines j).lru_order < k) ∧
    (∀ j, k ≤ j → j < n → (lines j).lru_order = j)

/-- The LRU structure invariant for every set of the cache. -/
def cache_inv (c : Cache) : Prop := ∀ s, set_inv (c.sets s).lines c.associativity

/-- Geometry well-formedness: the stored `log_num_sets` is exact, i.e.
`num_sets` is the power of two it claims to be.  `initialize_cache`
establishes this for every validated configuration, and accesses never touch
the geometry fields. -/
def cache_wf (c : Cache) : Prop := c.num_sets = 2 ^ c.log_num_sets

/-- The recency ranks of the valid lines of set `s`, in line-index order. -/
def valid_line_orders (c : Cache) (s : Nat) : List Nat :=
  ((List.range c.associativity).filter fun j => ((c.sets s).lines j).is_valid).map
    fun j => ((c.sets s).lines j).lru_order

/-- The number of valid lines of set `s`. -/
def valid_line_count (c : Cache) (s : Nat) : Nat :=
  ((List.range c.associativity).filter fun j => ((c.sets s).lines j).is_valid).length

/-- Relation between the cache state and the ghost flags: every valid line is
dirty exactly when its resident block has been stored to while resident. -/
def dirty_tracks_stored (c : Cache) (g : Nat → Nat → Bool) : Prop :=
  ∀ s j, ((c.sets s).lines j).is_valid = true → ((c.sets s).lines j).is_dirty = g s j

/-! ### Arithmetic groundwork: the code's `log2` on powers of two, and the
`is_pow2` bit trick. -/

theorem log2_go_two_pow : ∀ (k fuel : Nat), 2 ^ k ≤ fuel → log2_go fuel (2 ^ k) = k := by
  intro k
  induction k with
  | zero =>
    intro fuel h
    cases fuel with
    | zero => simp at h
    | succ f => simp [log2_go]
  | succ k ih =>
    intro fuel h
    have h2 : 1 ≤ 2 ^ k := Nat.one_le_two_pow
    have hp : 2 ^ (k + 1) = 2 ^ k * 2 := by rw [Nat.pow_succ]
    cases fuel with
    | zero => omega
    | succ f =>
      have hfuel : 2 ^ k ≤ f := by omega
      have hdiv : 2 ^ (k + 1) / 2 = 2 ^ k := by
        rw [hp, Nat.mul_div_cancel _ (by omega)]
      have hge : 2 ≤ 2 ^ (k + 1) := by omega
      simp only [log2_go, if_pos hge, hdiv, ih f hfuel]

theorem log2_two_pow (k : Nat) : log2 (2 ^ k) = k :=
  log2_go_two_pow k (2 ^ k) (Nat.le_refl _)

theorem land_even_odd (a b : Nat) : (2 * a) &&& (2 * b + 1) = 2 * (a &&& b) := by
  apply Nat.eq_of_testBit_eq
  intro i
  cases i with
  | zero =>
    simp [Nat.testBit_land, Nat.testBit_zero, Nat.mul_mod_right, Nat.mul_add_mod]
  | succ i =>
    have ha : 2 * a / 2 = a := Nat.mul_div_cancel_left _ (by omega)
    have hb : (2 * b + 1) / 2 = b := by omega
    have hc : 2 * (a &&& b) / 2 = a &&& b := Nat.mul_div_cancel_left _ (by omega)
    rw [Nat.testBit_land, Nat.testBit_succ, Nat.testBit_succ, Nat.testBit_succ,
      ha, hb, hc, Nat.testBit_land]

theorem land_odd_even (a b : Nat) : (2 * a + 1) &&& (2 * b) = 2 * (a &&& b) := by
  apply Nat.eq_of_testBit_eq
  intro i
  cases i with
  | zero =>
    simp [Nat.testBit_land, Nat.testBit_zero, Nat.mul_mod_right, Nat.mul_add_mod]
  | succ i =>
    have ha : (2 * a + 1) / 2 = a := by omega
    have hb : 2 * b / 2 = b := Nat.mul_div_cancel_left _ (by omega)
    have hc : 2 * (a &&& b) / 2 = a &&& b := Nat.mul_div_cancel_left _ (by omega)
    rw [Nat.testBit_land, Nat.testBit_succ, Nat.testBit_succ, Nat.testBit_succ,
      ha, hb, hc, Nat.testBit_land]

theorem exists_pow_of_is_pow2 : ∀ n : Nat, is_pow2 n = true → ∃ k, n = 2 ^ k := by
  intro n
  induction n using Nat.strong_induction_on with
  | _ n ih =>
    intro h
    simp only [is_pow2, Bool.and_eq_true, decide_eq_true_eq] at h
    obtain ⟨hpos, hland⟩ := h
    rcases Nat.mod_two_eq_zero_or_one n with hmod | hmod
    · have hn : n = 2 * (n / 2) := by omega
      set m := n / 2 with hm
      have hmpos : 0 < m := by omega
      have hsub : n - 1 = 2 * (m - 1) + 1 := by omega
      rw [hsub, hn, land_even_odd] at hland
      have : m &&& (m - 1) = 0 := by omega
      obtain ⟨k, hk⟩ := ih m (by omega) (by
        simp only [is_pow2, Bool.and_eq_true, decide_eq_true_eq]
        exact ⟨hmpos, this⟩)
      exact ⟨k + 1, by rw [hn, hk, Nat.pow_succ, Nat.mul_comm]⟩
    · rcases Nat.eq_or_lt_of_le (by omega : 1 ≤ n) with h1 | h1
      · exact ⟨0, by omega⟩
      · have hn : n = 2 * (n / 2) + 1 := by omega
        set m := n / 2 with hm
        have hmpos : 0 < m := by omega
        have hsub : n - 1 = 2 * m := by omega
        rw [hsub, hn, land_odd_even, Nat.and_self] at hland
        omega

theorem validate_args_true {a ls cs mp dp : Nat}
    (h : validate_args a ls cs mp dp = true) :
    0 < ls ∧ 0 < cs ∧ (a = 0 ∨ a = 1 ∨ is_pow2 a = true) ∧ is_pow2 ls = true ∧
      is_pow2 cs = true ∧ ls ≤ cs * 1024 ∧ cs * 1024 % ls = 0 ∧ a ≤ cs * 1024 / ls := by
  unfold validate_args at h
  split at h
  · simp at h
  split at h
  · simp at h
  split at h
  · simp at h
  split at h
  · simp at h
  split at h
  · simp at h
  split at h
  · simp at h
  next h1 h2 h3 h4 h5 h6 =>
    refine ⟨by omega, by omega, ?_, ?_, ?_, by omega, by omega, by omega⟩
    · by_cases ha0 : a = 0
      · exact Or.inl ha0
      by_cases ha1 : a = 1
      · exact Or.inr (Or.inl ha1)
      · refine Or.inr (Or.inr ?_)
        by_cases hp : is_pow2 a = true
        · exact hp
        · exact absurd ⟨ha0, ha1, by simp [hp]⟩ h2
    · by_cases hp : is_pow2 ls = true
      · exact hp
      · exact absurd (Or.inl (by simp [hp])) h3
    · by_cases hp : is_pow2 cs = true
      · exact hp
      · exact absurd (Or.inr (by simp [hp])) h3

/-! ### Geometry of a validated, freshly constructed cache. -/

theorem mk_cache_num_sets (a c l mp dp n : Nat) : (mk_cache a c l mp dp n).num_sets = n := rfl

theorem mk_cache_associativity (a c l mp dp n : Nat) :
    (mk_cache a c l mp dp n).associativity = a := rfl

theorem mk_cache_line_size (a c l mp dp n : Nat) : (mk_cache a c l mp dp n).line_size = l := rfl

theorem mk_cache_cache_size (a c l mp dp n : Nat) : (mk_cache a c l mp dp n).cache_size = c := rfl

theorem mk_cache_log_line_size (a c l mp dp n : Nat) :
    (mk_cache a c l mp dp n).log_line_size = log2 l := rfl

theorem mk_cache_log_num_sets (a c l mp dp n : Nat) :
    (mk_cache a c l mp dp n).log_num_sets = log2 n := rfl

theorem initialize_cache_zero (cs ls mp dp : Nat) :
    initialize_cache 0 cs ls mp dp =
      mk_cache (cs * 1024 / ls) cs ls mp dp 1 := by
  simp [initialize_cache]

theorem initialize_cache_one (cs ls mp dp : Nat) :
    initialize_cache 1 cs ls mp dp =
      mk_cache 1 cs ls mp dp (cs * 1024 / ls) := by
  simp [initialize_cache]

theorem initialize_cache_assoc {a : Nat} (cs ls mp dp : Nat) (h0 : a ≠ 0) (h1 : a ≠ 1) :
    initialize_cache a cs ls mp dp =
      mk_cache a cs ls mp dp (cs * 1024 / (ls * a)) := by
  simp [initialize_cache, h0, h1]

theorem initialize_cache_geometry {a ls cs mp dp : Nat}
    (h : validate_args a ls cs mp dp = true) :
    (initialize_cache a cs ls mp dp).num_sets =
        2 ^ (initialize_cache a cs ls mp dp).log_num_sets ∧
    (initialize_cache a cs ls mp dp).num_sets * (initialize_cache a cs ls mp dp).associativity *
        (initialize_cache a cs ls mp dp).line_size = cs * 1024 ∧
    0 < (initialize_cache a cs ls mp dp).associativity ∧
    (initialize_cache a cs ls mp dp).line_size = ls ∧
    (initialize_cache a cs ls mp dp).cache_size = cs ∧
    (initialize_cache a cs ls mp dp).log_line_size = log2 ls ∧
    (initialize_cache a cs ls mp dp).log_num_sets =
      log2 (initialize_cache a cs ls mp dp).num_sets := by
  obtain ⟨hls, hcs, ha, hpls, hpcs, hle, hmod, hbound⟩ := validate_args_true h
  obtain ⟨l, hl⟩ := exists_pow_of_is_pow2 ls hpls
  obtain ⟨m, hm⟩ := exists_pow_of_is_pow2 cs hpcs
  have hcsB : cs * 1024 = 2 ^ (m + 10) := by
    rw [hm, pow_add]; norm_num
  have hlm : l ≤ m + 10 := by
    have hle2 := hle
    rw [hl, hcsB] at hle2
    exact (Nat.pow_le_pow_iff_right (by norm_num)).mp hle2
  have hdivls : cs * 1024 / ls = 2 ^ (m + 10 - l) := by
    rw [hcsB, hl, Nat.pow_div hlm (by norm_num)]
  have hdvd : ls ∣ cs * 1024 := Nat.dvd_of_mod_eq_zero hmod
  by_cases ha0 : a = 0
  · subst ha0
    rw [initialize_cache_zero]
    rw [mk_cache_num_sets, mk_cache_associativity, mk_cache_line_size, mk_cache_cache_size,
      mk_cache_log_line_size, mk_cache_log_num_sets]
    refine ⟨?_, ?_, ?_, rfl, rfl, rfl, rfl⟩
    · have h1 : log2 1 = 0 := log2_two_pow 0
      rw [h1, pow_zero]
    · rw [Nat.one_mul, Nat.div_mul_cancel hdvd]
    · rw [hdivls]; exact Nat.pos_pow_of_pos _ (by norm_num)
  · by_cases ha1 : a = 1
    · subst ha1
      rw [initialize_cache_one]
      rw [mk_cache_num_sets, mk_cache_associativity, mk_cache_line_size, mk_cache_cache_size,
        mk_cache_log_line_size, mk_cache_log_num_sets]
      refine ⟨?_, ?_, by norm_num, rfl, rfl, rfl, rfl⟩
      · rw [hdivls, log2_two_pow]
      · rw [Nat.mul_one, Nat.div_mul_cancel hdvd]
    · have ha2 : is_pow2 a = true := by rcases ha with h | h | h <;> first | omega | exact h
      obtain ⟨t, ht⟩ := exists_pow_of_is_pow2 a ha2
      have hlsa : ls * a = 2 ^ (l + t) := by rw [hl, ht, pow_add]
      have htle : l + t ≤ m + 10 := by
        have hb2 := hbound
        rw [ht, hdivls] at hb2
        have := (Nat.pow_le_pow_iff_right (by norm_num : 1 < 2)).mp hb2
        omega
      have hdvd2 : ls * a ∣ cs * 1024 := by
        rw [hlsa, hcsB]; exact pow_dvd_pow 2 htle
      have hdivlsa : cs * 1024 / (ls * a) = 2 ^ (m + 10 - (l + t)) := by
        rw [hcsB, hlsa, Nat.pow_div htle (by norm_num)]
      rw [initialize_cache_assoc cs ls mp dp ha0 ha1]
      rw [mk_cache_num_sets, mk_cache_associativity, mk_cache_line_size, mk_cache_cache_size,
        mk_cache_log_line_size, mk_cache_log_num_sets]
      refine ⟨?_, ?_, by omega, rfl, rfl, rfl, rfl⟩
      · rw [hdivlsa, log2_two_pow]
      · rw [Nat.mul_assoc, Nat.mul_comm a ls, Nat.div_mul_cancel hdvd2]

/-- C8: for every valid geometry (associativity 0, 1, or a power of two
within the cache limits; cache size and line size powers of two, the cache
at least as large as a line), the constructed engine satisfies
`num_sets * ways * line_size_bytes = cache_size_bytes` (the cache size field
is in kilobytes, so the total byte capacity is `cache_size * 1024`). -/
theorem geometry_product_invariant {a ls cs mp dp : Nat}
    (h : validate_args a ls cs mp dp = true) :
    (initialize_cache a cs ls mp dp).num_sets * (initialize_cache a cs ls mp dp).associativity *
        (initialize_cache a cs ls mp dp).line_size =
      (initialize_cache a cs ls mp dp).cache_size * 1024 := by
  obtain ⟨_, hprod, _, _, hcs, _, _⟩ := initialize_cache_geometry h
  rw [hprod, hcs]

/-- Witness for C8 at the concrete configuration `-a 4 -l 32 -s 64`. -/
theorem geometry_product_invariant_witness :
    validate_args 4 32 64 50 5 = true ∧
      (initialize_cache 4 64 32 50 5).num_sets * (initialize_cache 4 64 32 50 5).associativity *
          (initialize_cache 4 64 32 50 5).line_size =
        (initialize_cache 4 64 32 50 5).cache_size * 1024 :=
  ⟨by decide, geometry_product_invariant (by decide)⟩

/-! ### Address decoding (C4). -/

/-- C4 (amended): decoding is total, and for every validated geometry the set
index satisfies the specified formula exactly; the tag is the low 32 bits of
`address >> (log2 line_size + log2 num_sets)` (the C function returns the
shifted 64-bit address as a 32-bit `int`), which agrees with the claimed
formula exactly when the shifted value fits in 32 bits. -/
theorem address_decoding_amended {a ls cs mp dp : Nat} (address : Nat)
    (h : validate_args a ls cs mp dp = true) :
    (extract_set_index address (initialize_cache a cs ls mp dp) =
      if (initialize_cache a cs ls mp dp).num_sets = 1 then 0
      else (address >>> log2 ls) &&& ((initialize_cache a cs ls mp dp).num_sets - 1)) ∧
    extract_tag_number address (initialize_cache a cs ls mp dp) =
      (address >>> (log2 ls + log2 (initialize_cache a cs ls mp dp).num_sets)) % 2 ^ 32 ∧
    (address >>> (log2 ls + log2 (initialize_cache a cs ls mp dp).num_sets) < 2 ^ 32 →
      extract_tag_number address (initialize_cache a cs ls mp dp) =
        address >>> (log2 ls + log2 (initialize_cache a cs ls mp dp).num_sets)) := by
  obtain ⟨hwf, _, _, _, _, hll, hln⟩ := initialize_cache_geometry h
  refine ⟨?_, ?_, ?_⟩
  · rw [extract_set_index, hll]
    split
    · rfl
    · rw [Nat.one_shiftLeft, ← hwf]
  · rw [extract_tag_number, hll, hln]
  · intro hlt
    rw [extract_tag_number, hll, hln, Nat.mod_eq_of_lt hlt]

/-- Witness for the amended C4 at the default geometry and address
`0xdeadbeef`. -/
theorem address_decoding_amended_witness :
    validate_args 1 16 16 30 2 = true ∧
      (extract_set_index 0xdeadbeef (initialize_cache 1 16 16 30 2) =
        if (initialize_cache 1 16 16 30 2).num_sets = 1 then 0
        else (0xdeadbeef >>> log2 16) &&& ((initialize_cache 1 16 16 30 2).num_sets - 1)) ∧
      extract_tag_number 0xdeadbeef (initialize_cache 1 16 16 30 2) =
        (0xdeadbeef >>> (log2 16 + log2 (initialize_cache 1 16 16 30 2).num_sets)) % 2 ^ 32 ∧
      (0xdeadbeef >>> (log2 16 + log2 (initialize_cache 1 16 16 30 2).num_sets) < 2 ^ 32 →
        extract_tag_number 0xdeadbeef (initialize_cache 1 16 16 30 2) =
          0xdeadbeef >>> (log2 16 + log2 (initialize_cache 1 16 16 30 2).num_sets)) :=
  ⟨by decide, address_decoding_amended 0xdeadbeef (by decide)⟩

/-- C4 counterexample to the claim as stated: with the default validated
geometry (direct-mapped, 16 KB, 16-byte lines, so 14 offset-plus-index bits)
and the 64-bit address `2 ^ 50`, the code's tag is the truncated value `0`,
not `address >> (log2 line_size + log2 num_sets) = 2 ^ 36`: the C function
returns the shifted `unsigned long` as a 32-bit `int`. -/
theorem extract_tag_truncation_counterexample :
    extract_tag_number (2 ^ 50) (initialize_cache 1 16 16 30 2) ≠
      (2 ^ 50) >>> ((initialize_cache 1 16 16 30 2).log_line_size +
        (initialize_cache 1 16 16 30 2).log_num_sets) := by
  decide

/-! ### C1: the set-index range check. -/

/-- A cache state on which the decoded set index equals `num_sets`: two sets,
but a `log_num_sets` of 2 (the inconsistent geometry/decoder pairing the range
check in `access_cache` exists to catch), with `log_line_size = 0`.  Address 6
then decodes to set index `6 & 3 = 2 = num_sets`, one past the last valid
set index. -/
def boundary_index_state : Cache :=
  { mk_cache 1 0 1 30 2 2 with log_num_sets := 2, log_line_size := 0 }

/-- C1, evaluated at the failing input: the decoded set index equals
`num_sets` (hence violates `0 ≤ set_index < num_sets`), yet `access_cache`
does not signal the fatal out-of-range failure - the check in the source is
the strict `set_index > cache->num_sets`, so equality slips through and the
access proceeds (in the C program this reads `sets[num_sets]`, one past the
end of the allocated array) and produces a normal miss result. -/
theorem access_cache_boundary_set_index_not_fatal :
    extract_set_index 6 boundary_index_state = boundary_index_state.num_sets ∧
      (access_cache boundary_index_state ⟨'l', 6, 1⟩).isOk = true := by
  decide

/-! ### C6: the end-to-end two-way store scenario. -/

/-- The engine of the spec's second end-to-end scenario: `ways = 2`,
`line_size = 16` bytes, `num_sets = 1` - the geometry the spec denotes by
(associativity 2, line 16 B, cache 32 B), built by the construction tail of
`initialize_cache` (`32 / (16 * 2) = 1` set).  The `cache_size` struct field
is in kilobytes in the source and is never read by the access path; it is set
to 0 here because 32 bytes is not a whole number of kilobytes. -/
def two_way_32B_engine : Cache := mk_cache 2 0 16 30 2 1

/-- C6: from the freshly constructed two-way engine, `Store 0x00`,
`Store 0x10`, `Store 0x20` are all misses; the third access selects as victim
line 0 - the line holding address 0x00's block (tag
`extract_tag_number 0x00`), 0x10's line being more recently used - which is
dirty at that point; and the final statistics show 3 misses and exactly 1
dirty write-back. -/
theorem end_to_end_two_way_store_scenario :
    (access_results two_way_32B_engine
        [⟨'s', 0x00, 1⟩, ⟨'s', 0x10, 1⟩, ⟨'s', 0x20, 1⟩]).toOption =
      some [false, false, false] ∧
    (simulate_cache two_way_32B_engine [⟨'s', 0x00, 1⟩, ⟨'s', 0x10, 1⟩]).toOption.map
        (fun c => (find_lru_line_index c 0,
          ((c.sets 0).lines (find_lru_line_index c 0)).tag,
          ((c.sets 0).lines (find_lru_line_index c 0)).is_dirty)) =
      some (0, extract_tag_number 0x00 two_way_32B_engine, true) ∧
    (simulate_cache two_way_32B_engine
        [⟨'s', 0x00, 1⟩, ⟨'s', 0x10, 1⟩, ⟨'s', 0x20, 1⟩]).toOption.map
        (fun c => (get_cache_misses c, get_dirty_write_backs c)) =
      some (3, 1) := by
  decide

/-! ### Effect lemmas: what one access does to the state, path by path. -/

section Effects

variable {c : Cache} {op : CacheOp} {σ τ i j s v : Nat} {b : Bool} {l : CacheLine}

theorem set_line_sets_ne (h : s ≠ σ) (li : Nat) : (set_line c σ li l).sets s = c.sets s := by
  simp [set_line, h]

theorem set_line_lines (li : Nat) :
    ((set_line c σ li l).sets σ).lines i = if i = li then l else (c.sets σ).lines i := by
  simp [set_line]

theorem update_lru_order_sets_ne (h : s ≠ σ) (li : Nat) :
    (update_lru_order c σ li).sets s = c.sets s := by
  simp [update_lru_order, h]

theorem update_lru_order_lines (li : Nat) :
    ((update_lru_order c σ li).sets σ).lines i =
      if i = li then { (c.sets σ).lines i with lru_order := 0 }
      else if i < c.associativity ∧
          ((c.sets σ).lines i).lru_order < ((c.sets σ).lines li).lru_order then
        { (c.sets σ).lines i with lru_order := ((c.sets σ).lines i).lru_order + 1 }
      else (c.sets σ).lines i := by
  simp [update_lru_order]

theorem set_line_associativity (li : Nat) :
    (set_line c σ li l).associativity = c.associativity := rfl

theorem set_line_stats (li : Nat) : (set_line c σ li l).stats = c.stats := rfl

theorem update_lru_order_associativity (li : Nat) :
    (update_lru_order c σ li).associativity = c.associativity := rfl

theorem update_lru_order_stats (li : Nat) : (update_lru_order c σ li).stats = c.stats := rfl

theorem hit_state_geometry :
    (hit_state c b σ i).associativity = c.associativity ∧
    (hit_state c b σ i).num_sets = c.num_sets ∧
    (hit_state c b σ i).log_line_size = c.log_line_size ∧
    (hit_state c b σ i).log_num_sets = c.log_num_sets ∧
    (hit_state c b σ i).line_size = c.line_size ∧
    (hit_state c b σ i).cache_size = c.cache_size ∧
    (hit_state c b σ i).miss_penalty = c.miss_penalty ∧
    (hit_state c b σ i).dirty_wb_penalty = c.dirty_wb_penalty := by
  cases b <;> simp [hit_state, set_line, update_lru_order]

theorem hit_state_stats :
    (hit_state c b σ i).stats =
      ⟨c.stats.hits + 1, c.stats.misses, c.stats.dirty_write_backs⟩ := by
  cases b <;> simp [hit_state, set_line, update_lru_order]

theorem hit_state_sets_ne (h : s ≠ σ) : (hit_state c b σ i).sets s = c.sets s := by
  cases b <;> simp [hit_state, set_line, update_lru_order, h]

theorem hit_state_line_valid :
    (((hit_state c b σ i).sets σ).lines j).is_valid = (((c.sets σ).lines j).is_valid) := by
  cases b <;>
    simp [hit_state, set_line_lines, update_lru_order_lines] <;>
    split <;> simp_all [apply_ite CacheLine.is_valid, apply_ite CacheLine.tag,
      apply_ite CacheLine.is_dirty, apply_ite CacheLine.lru_order]

theorem hit_state_line_tag :
    (((hit_state c b σ i).sets σ).lines j).tag = ((c.sets σ).lines j).tag := by
  cases b <;>
    simp [hit_state, set_line_lines, update_lru_order_lines] <;>
    split <;> simp_all [apply_ite CacheLine.is_valid, apply_ite CacheLine.tag,
      apply_ite CacheLine.is_dirty, apply_ite CacheLine.lru_order]

theorem hit_state_line_dirty :
    (((hit_state c b σ i).sets σ).lines j).is_dirty =
      if j = i ∧ b = true then true else ((c.sets σ).lines j).is_dirty := by
  cases b <;>
    simp [hit_state, set_line_lines, update_lru_order_lines] <;>
    split <;> simp_all [apply_ite CacheLine.is_valid, apply_ite CacheLine.tag,
      apply_ite CacheLine.is_dirty, apply_ite CacheLine.lru_order]

theorem hit_state_line_order :
    (((hit_state c b σ i).sets σ).lines j).lru_order =
      if j = i then 0
      else if j < c.associativity ∧
          ((c.sets σ).lines j).lru_order < ((c.sets σ).lines i).lru_order then
        ((c.sets σ).lines j).lru_order + 1
      else ((c.sets σ).lines j).lru_order := by
  cases b <;>
    simp [hit_state, set_line_lines, update_lru_order_lines] <;>
    split <;> simp_all [apply_ite CacheLine.is_valid, apply_ite CacheLine.tag,
      apply_ite CacheLine.is_dirty, apply_ite CacheLine.lru_order]

theorem miss_state_geometry :
    (miss_state c b σ τ).associativity = c.associativity ∧
    (miss_state c b σ τ).num_sets = c.num_sets ∧
    (miss_state c b σ τ).log_line_size = c.log_line_size ∧
    (miss_state c b σ τ).log_num_sets = c.log_num_sets ∧
    (miss_state c b σ τ).line_size = c.line_size ∧
    (miss_state c b σ τ).cache_size = c.cache_size ∧
    (miss_state c b σ τ).miss_penalty = c.miss_penalty ∧
    (miss_state c b σ τ).dirty_wb_penalty = c.dirty_wb_penalty := by
  simp only [miss_state]
  split <;> simp [set_line, update_lru_order]

theorem miss_state_stats :
    (miss_state c b σ τ).stats =
      ⟨c.stats.hits, c.stats.misses + 1,
        c.stats.dirty_write_backs +
          if ((c.sets σ).lines (find_lru_line_index c σ)).is_dirty = true then 1 else 0⟩ := by
  simp only [miss_state]
  split <;> simp_all [set_line, update_lru_order]

theorem miss_state_sets_ne (h : s ≠ σ) : (miss_state c b σ τ).sets s = c.sets s := by
  simp only [miss_state]
  split <;> simp [set_line, update_lru_order, h]

theorem miss_state_line_valid (hv : find_lru_line_index c σ = v) :
    (((miss_state c b σ τ).sets σ).lines j).is_valid =
      if j = v then true else ((c.sets σ).lines j).is_valid := by
  simp only [miss_state, hv]
  split <;>
    (simp only [update_lru_order_lines, set_line_lines] <;>
      split <;> simp_all [set_line_associativity, apply_ite CacheLine.is_valid,
        apply_ite CacheLine.tag, apply_ite CacheLine.is_dirty, apply_ite CacheLine.lru_order])

theorem miss_state_line_tag (hv : find_lru_line_index c σ = v) :
    (((miss_state c b σ τ).sets σ).lines j).tag =
      if j = v then τ else ((c.sets σ).lines j).tag := by
  simp only [miss_state, hv]
  split <;>
    (simp only [update_lru_order_lines, set_line_lines] <;>
      split <;> simp_all [set_line_associativity, apply_ite CacheLine.is_valid,
        apply_ite CacheLine.tag, apply_ite CacheLine.is_dirty, apply_ite CacheLine.lru_order])

theorem miss_state_line_dirty (hv : find_lru_line_index c σ = v) :
    (((miss_state c b σ τ).sets σ).lines j).is_dirty =
      if j = v then b else ((c.sets σ).lines j).is_dirty := by
  simp only [miss_state, hv]
  split <;>
    (simp only [update_lru_order_lines, set_line_lines] <;>
      split <;> simp_all [set_line_associativity, apply_ite CacheLine.is_valid,
        apply_ite CacheLine.tag, apply_ite CacheLine.is_dirty, apply_ite CacheLine.lru_order])

theorem miss_state_line_order (hv : find_lru_line_index c σ = v) :
    (((miss_state c b σ τ).sets σ).lines j).lru_order =
      if j = v then 0
      else if j < c.associativity ∧
          ((c.sets σ).lines j).lru_order < ((c.sets σ).lines v).lru_order then
        ((c.sets σ).lines j).lru_order + 1
      else ((c.sets σ).lines j).lru_order := by
  simp only [miss_state, hv]
  split <;>
    (simp only [update_lru_order_lines, set_line_lines] <;>
      split <;> simp_all [set_line_associativity, apply_ite CacheLine.is_valid,
        apply_ite CacheLine.tag, apply_ite CacheLine.is_dirty, apply_ite CacheLine.lru_order])

theorem is_cache_hit_some (h : hit_index c σ τ = some i) :
    is_cache_hit c op σ τ = (true, hit_state c (op.access_type == 's') σ i) := by
  simp only [is_cache_hit, h, hit_state]

theorem is_cache_hit_none (h : hit_index c σ τ = none) : is_cache_hit c op σ τ = (false, c) := by
  simp [is_cache_hit, h]

theorem handle_cache_miss_eq_miss_state :
    handle_cache_miss c op σ τ = miss_state c (op.access_type == 's') σ τ := rfl

theorem access_cache_of_hit (hguard : ¬ c.num_sets < extract_set_index op.address c)
    (h : hit_index c (extract_set_index op.address c) (extract_tag_number op.address c) =
      some i) :
    access_cache c op =
      Except.ok (true, hit_state c (op.access_type == 's') (extract_set_index op.address c) i) := by
  simp only [access_cache, if_neg hguard, is_cache_hit_some h]

theorem access_cache_of_miss (hguard : ¬ c.num_sets < extract_set_index op.address c)
    (h : hit_index c (extract_set_index op.address c) (extract_tag_number op.address c) =
      none) :
    access_cache c op =
      Except.ok (false, miss_state c (op.access_type == 's') (extract_set_index op.address c)
        (extract_tag_number op.address c)) := by
  simp only [access_cache, if_neg hguard, is_cache_hit_none h, handle_cache_miss_eq_miss_state]

theorem access_cache_ok {r : Bool} {c' : Cache}
    (hok : access_cache c op = Except.ok (r, c')) :
    ¬ c.num_sets < extract_set_index op.address c ∧
    ((∃ i, hit_index c (extract_set_index op.address c) (extract_tag_number op.address c) =
          some i ∧ r = true ∧
          c' = hit_state c (op.access_type == 's') (extract_set_index op.address c) i) ∨
      (hit_index c (extract_set_index op.address c) (extract_tag_number op.address c) = none ∧
        r = false ∧
        c' = miss_state c (op.access_type == 's') (extract_set_index op.address c)
          (extract_tag_number op.address c))) := by
  by_cases hguard : c.num_sets < extract_set_index op.address c
  · simp [access_cache, hguard] at hok
  refine ⟨hguard, ?_⟩
  cases hhit : hit_index c (extract_set_index op.address c) (extract_tag_number op.address c) with
  | some i =>
    rw [access_cache_of_hit hguard hhit] at hok
    refine Or.inl ⟨i, rfl, ?_, ?_⟩ <;>
      cases hok <;> rfl
  | none =>
    rw [access_cache_of_miss hguard hhit] at hok
    refine Or.inr ⟨rfl, ?_, ?_⟩ <;>
      cases hok <;> rfl

theorem hit_index_some (h : hit_index c σ τ = some i) :
    i < c.associativity ∧ ((c.sets σ).lines i).is_valid = true ∧
      ((c.sets σ).lines i).tag = τ := by
  have hmem := List.mem_of_find?_eq_some h
  have hp := List.find?_some h
  simp only [Bool.and_eq_true, beq_iff_eq] at hp
  exact ⟨List.mem_range.mp hmem, hp.1, hp.2⟩

theorem hit_index_isSome (hi : i < c.associativity)
    (hvalid : ((c.sets σ).lines i).is_valid = true) (htag : ((c.sets σ).lines i).tag = τ) :
    (hit_index c σ τ).isSome = true := by
  refine List.find?_isSome.mpr ⟨i, List.mem_range.mpr hi, ?_⟩
  simp [hvalid, htag]

theorem extract_set_index_congr {c' : Cache} (addr : Nat) (h1 : c'.num_sets = c.num_sets)
    (h2 : c'.log_line_size = c.log_line_size) (h3 : c'.log_num_sets = c.log_num_sets) :
    extract_set_index addr c' = extract_set_index addr c := by
  unfold extract_set_index
  rw [h1, h2, h3]

theorem extract_tag_number_congr {c' : Cache} (addr : Nat)
    (h2 : c'.log_line_size = c.log_line_size) (h3 : c'.log_num_sets = c.log_num_sets) :
    extract_tag_number addr c' = extract_tag_number addr c := by
  unfold extract_tag_number
  rw [h2, h3]

end Effects

/-! ### C9: spatial isolation of a single access. -/

/-- C9: a single successful access changes at most the addressed set and the
statistics: every geometry field is unchanged, and every set other than the
decoded one is completely unchanged (all its lines, with tags, flags and
recency ranks). -/
theorem access_frame_other_sets_unchanged :
    ∀ (c : Cache) (op : CacheOp) (r : Bool) (c' : Cache),
      access_cache c op = Except.ok (r, c') →
      (c'.associativity = c.associativity ∧ c'.cache_size = c.cache_size ∧
        c'.line_size = c.line_size ∧ c'.miss_penalty = c.miss_penalty ∧
        c'.dirty_wb_penalty = c.dirty_wb_penalty ∧ c'.num_sets = c.num_sets ∧
        c'.log_line_size = c.log_line_size ∧ c'.log_num_sets = c.log_num_sets) ∧
      ∀ s, s ≠ extract_set_index op.address c → c'.sets s = c.sets s := by
  intro c op r c' h
  obtain ⟨hguard, hcase⟩ := access_cache_ok h
  rcases hcase with ⟨i, hhit, hr, hc'⟩ | ⟨hmiss, hr, hc'⟩
  · subst hc'
    obtain ⟨h1, h2, h3, h4, h5, h6, h7, h8⟩ := hit_state_geometry
      (c := c) (b := op.access_type == 's') (σ := extract_set_index op.address c) (i := i)
    exact ⟨⟨h1, h6, h5, h7, h8, h2, h3, h4⟩, fun s hs => hit_state_sets_ne hs⟩
  · subst hc'
    obtain ⟨h1, h2, h3, h4, h5, h6, h7, h8⟩ := miss_state_geometry
      (c := c) (b := op.access_type == 's') (σ := extract_set_index op.address c)
      (τ := extract_tag_number op.address c)
    exact ⟨⟨h1, h6, h5, h7, h8, h2, h3, h4⟩, fun s hs => miss_state_sets_ne hs⟩

/-- Witness for C9: a concrete store access on the default engine, with the
theorem's conclusion instantiated through it. -/
theorem access_frame_other_sets_unchanged_witness :
    ∃ (r : Bool) (c' : Cache),
      access_cache (initialize_cache 1 16 16 30 2) ⟨'s', 0x40, 1⟩ = Except.ok (r, c') ∧
      ((c'.associativity = (initialize_cache 1 16 16 30 2).associativity ∧
        c'.cache_size = (initialize_cache 1 16 16 30 2).cache_size ∧
        c'.line_size = (initialize_cache 1 16 16 30 2).line_size ∧
        c'.miss_penalty = (initialize_cache 1 16 16 30 2).miss_penalty ∧
        c'.dirty_wb_penalty = (initialize_cache 1 16 16 30 2).dirty_wb_penalty ∧
        c'.num_sets = (initialize_cache 1 16 16 30 2).num_sets ∧
        c'.log_line_size = (initialize_cache 1 16 16 30 2).log_line_size ∧
        c'.log_num_sets = (initialize_cache 1 16 16 30 2).log_num_sets) ∧
      ∀ s, s ≠ extract_set_index (CacheOp.mk 's' 0x40 1).address (initialize_cache 1 16 16 30 2) →
        c'.sets s = (initialize_cache 1 16 16 30 2).sets s) :=
  ⟨false, _, rfl, access_frame_other_sets_unchanged _ _ _ _ rfl⟩

/-! ### C10: the access kind is only ever tested against the store marker. -/

/-- C10: for any access kind other than the store marker `'s'` - including
unrecognised kinds - `access_cache` performs exactly the same transition as a
load `'l'` at the same address: the engine compares the kind only against
`'s'` and never rejects an access because of its kind.  (The `instructions`
field is never read by the engine at all, so it may differ too.) -/
theorem non_store_kind_behaves_like_load :
    ∀ (c : Cache) (k : Char) (addr ins ins' : Nat), k ≠ 's' →
      access_cache c ⟨k, addr, ins⟩ = access_cache c ⟨'l', addr, ins'⟩ := by
  intro c k addr ins ins' hk
  have hbeq : (k == 's') = false := by
    simpa using hk
  have hbeq2 : (('l' : Char) == 's') = false := by decide
  by_cases hguard : c.num_sets < extract_set_index addr c
  · simp [access_cache, hguard]
  · cases hhit : hit_index c (extract_set_index addr c) (extract_tag_number addr c) with
    | some i =>
      rw [access_cache_of_hit hguard hhit, access_cache_of_hit hguard hhit]
      simp only [hbeq, hbeq2]
    | none =>
      rw [access_cache_of_miss hguard hhit, access_cache_of_miss hguard hhit]
      simp only [hbeq, hbeq2]

/-- Witness for C10: an unrecognised kind `'x'` at address 0 on the default
engine transitions exactly like a load. -/
theorem non_store_kind_behaves_like_load_witness :
    ('x' ≠ 's') ∧
      access_cache (initialize_cache 1 16 16 30 2) ⟨'x', 0, 1⟩ =
        access_cache (initialize_cache 1 16 16 30 2) ⟨'l', 0, 1⟩ :=
  ⟨by decide, non_store_kind_behaves_like_load _ 'x' 0 1 1 (by decide)⟩

/-! ### C7: a hit is stable under immediate re-access. -/

/-- C7: if an access is a hit, then immediately re-accessing the same address
(with either kind, load or store) is again a hit, and the second access
changes neither the miss counter nor the dirty write-back counter. -/
theorem hit_then_rehit_same_address :
    ∀ (c : Cache) (op : CacheOp) (c₁ : Cache),
      access_cache c op = Except.ok (true, c₁) →
      ∀ (k : Char) (ins : Nat),
        ∃ c₂, access_cache c₁ ⟨k, op.address, ins⟩ = Except.ok (true, c₂) ∧
          get_cache_misses c₂ = get_cache_misses c₁ ∧
          get_dirty_write_backs c₂ = get_dirty_write_backs c₁ := by
  intro c op c₁ h k ins
  obtain ⟨hguard, hcase⟩ := access_cache_ok h
  rcases hcase with ⟨i, hhit, _, hc₁⟩ | ⟨_, hr, _⟩
  swap
  · exact absurd hr (by simp)
  obtain ⟨h1, h2, h3, h4, _, _, _, _⟩ := hit_state_geometry
    (c := c) (b := op.access_type == 's') (σ := extract_set_index op.address c) (i := i)
  rw [← hc₁] at h1 h2 h3 h4
  have hσ : extract_set_index op.address c₁ = extract_set_index op.address c :=
    extract_set_index_congr op.address h2 h3 h4
  have hτ : extract_tag_number op.address c₁ = extract_tag_number op.address c :=
    extract_tag_number_congr op.address h3 h4
  obtain ⟨hi, hvalid, htag⟩ := hit_index_some hhit
  have hvalid₁ : ((c₁.sets (extract_set_index op.address c)).lines i).is_valid = true := by
    rw [hc₁, hit_state_line_valid]
    exact hvalid
  have htag₁ : ((c₁.sets (extract_set_index op.address c)).lines i).tag =
      extract_tag_number op.address c := by
    rw [hc₁, hit_state_line_tag]
    exact htag
  have hsome : (hit_index c₁ (extract_set_index op.address c)
      (extract_tag_number op.address c)).isSome = true :=
    hit_index_isSome (by omega) hvalid₁ htag₁
  obtain ⟨i₂, hi₂⟩ := Option.isSome_iff_exists.mp hsome
  have hguard₁ : ¬ c₁.num_sets < extract_set_index (CacheOp.mk k op.address ins).address c₁ := by
    show ¬ c₁.num_sets < extract_set_index op.address c₁
    rw [hσ, h2]
    exact hguard
  have hhit₁ : hit_index c₁ (extract_set_index (CacheOp.mk k op.address ins).address c₁)
      (extract_tag_number (CacheOp.mk k op.address ins).address c₁) = some i₂ := by
    show hit_index c₁ (extract_set_index op.address c₁) (extract_tag_number op.address c₁) =
      some i₂
    rw [hσ, hτ]
    exact hi₂
  refine ⟨_, access_cache_of_hit hguard₁ hhit₁, ?_, ?_⟩ <;>
    simp [get_cache_misses, get_dirty_write_backs, hit_state_stats]

/-- Witness for C7: on the default engine, a load of address 0 misses; on the
resulting state a second load of address 0 is a hit, and the theorem applies
to that hit with a store re-access. -/
theorem hit_then_rehit_same_address_witness :
    access_cache (engine_after (initialize_cache 1 16 16 30 2) ⟨'l', 0, 1⟩) ⟨'l', 0, 1⟩ =
      Except.ok (true,
        engine_after (engine_after (initialize_cache 1 16 16 30 2) ⟨'l', 0, 1⟩) ⟨'l', 0, 1⟩) ∧
    ∃ c₂,
      access_cache
          (engine_after (engine_after (initialize_cache 1 16 16 30 2) ⟨'l', 0, 1⟩) ⟨'l', 0, 1⟩)
          ⟨'s', 0, 2⟩ =
        Except.ok (true, c₂) ∧
      get_cache_misses c₂ =
        get_cache_misses
          (engine_after (engine_after (initialize_cache 1 16 16 30 2) ⟨'l', 0, 1⟩) ⟨'l', 0, 1⟩) ∧
      get_dirty_write_backs c₂ =
        get_dirty_write_backs
          (engine_after (engine_after (initialize_cache 1 16 16 30 2) ⟨'l', 0, 1⟩) ⟨'l', 0, 1⟩) :=
  ⟨rfl,
    hit_then_rehit_same_address (engine_after (initialize_cache 1 16 16 30 2) ⟨'l', 0, 1⟩)
      ⟨'l', 0, 1⟩
      (engine_after (engine_after (initialize_cache 1 16 16 30 2) ⟨'l', 0, 1⟩) ⟨'l', 0, 1⟩)
      rfl 's' 2⟩

/-! ### C3: victim selection. -/

theorem find_lru_go_first_invalid (lines : Nat → CacheLine) :
    ∀ (fuel i i0 : Nat), i ≤ i0 → i0 < i + fuel → (lines i0).is_valid = false →
      (∀ j, i ≤ j → j < i0 → (lines j).is_valid = true) →
      ∀ maxo lru, find_lru_go lines fuel i maxo lru = i0 := by
  intro fuel
  induction fuel with
  | zero => intro i i0 h1 h2 _ _ _ _; omega
  | succ fuel ih =>
    intro i i0 h1 h2 hinv hval maxo lru
    by_cases hii : i = i0
    · subst hii
      simp [find_lru_go, hinv]
    · have hvi : (lines i).is_valid = true := hval i (Nat.le_refl i) (by omega)
      rw [find_lru_go, if_neg (by simp [hvi])]
      split <;>
        exact ih (i + 1) i0 (by omega) (by omega) hinv
          (fun j hj1 hj2 => hval j (by omega) hj2) _ _

theorem find_lru_go_all_valid (lines : Nat → CacheLine) (n : Nat) :
    ∀ (fuel i maxo lru : Nat), i + fuel = n →
      (∀ j, j < n → (lines j).is_valid = true) → lru < n →
      (∀ j, j < i → (lines j).lru_order ≤ maxo) → maxo ≤ (lines lru).lru_order →
      (∀ j, j < lru → (lines j).lru_order < (lines lru).lru_order) →
      find_lru_go lines fuel i maxo lru < n ∧
        (∀ j, j < n →
          (lines j).lru_order ≤ (lines (find_lru_go lines fuel i maxo lru)).lru_order) ∧
        (∀ j, j < find_lru_go lines fuel i maxo lru →
          (lines j).lru_order < (lines (find_lru_go lines fuel i maxo lru)).lru_order) := by
  intro fuel
  induction fuel with
  | zero =>
    intro i maxo lru hn hval hlru hbefore hmax hstrict
    refine ⟨hlru, ?_, hstrict⟩
    intro j hj
    exact Nat.le_trans (hbefore j (by omega)) hmax
  | succ fuel ih =>
    intro i maxo lru hn hval hlru hbefore hmax hstrict
    have hvi : (lines i).is_valid = true := hval i (by omega)
    rw [find_lru_go, if_neg (by simp [hvi])]
    split
    next hgt =>
      refine ih (i + 1) (lines i).lru_order i (by omega) hval (by omega) ?_ (Nat.le_refl _) ?_
      · intro j hj
        rcases Nat.lt_or_ge j i with hji | hji
        · exact Nat.le_trans (hbefore j hji) (by omega)
        · have : j = i := by omega
          subst this
          exact Nat.le_refl _
      · intro j hj
        exact Nat.lt_of_le_of_lt (hbefore j hj) hgt
    next hle =>
      refine ih (i + 1) maxo lru (by omega) hval hlru ?_ hmax hstrict
      intro j hj
      rcases Nat.lt_or_ge j i with hji | hji
      · exact hbefore j hji
      · have : j = i := by omega
        subst this
        omega

/-- C3: on every miss the victim returned by `find_lru_line_index` is: the
invalid line with the lowest index, whenever the addressed set has any
invalid line among its `associativity` lines (cold lines fill first,
regardless of recency); and otherwise - all lines valid - the line with the
maximum recency rank, ties broken by the lowest index (the strict `>` scan
keeps the first maximum). -/
theorem find_lru_line_index_spec :
    ∀ (c : Cache) (σ : Nat),
      ((∃ i, i < c.associativity ∧ ((c.sets σ).lines i).is_valid = false) →
        find_lru_line_index c σ < c.associativity ∧
        ((c.sets σ).lines (find_lru_line_index c σ)).is_valid = false ∧
        (∀ j, j < find_lru_line_index c σ → ((c.sets σ).lines j).is_valid = true)) ∧
      ((∀ i, i < c.associativity → ((c.sets σ).lines i).is_valid = true) →
        0 < c.associativity →
        find_lru_line_index c σ < c.associativity ∧
        (∀ j, j < c.associativity →
          ((c.sets σ).lines j).lru_order ≤
            ((c.sets σ).lines (find_lru_line_index c σ)).lru_order) ∧
        (∀ j, j < find_lru_line_index c σ →
          ((c.sets σ).lines j).lru_order <
            ((c.sets σ).lines (find_lru_line_index c σ)).lru_order)) := by
  intro c σ
  constructor
  · intro hex
    have hex' : ∃ i, ((c.sets σ).lines i).is_valid = false := by
      obtain ⟨i, _, hi⟩ := hex
      exact ⟨i, hi⟩
    set i0 := Nat.find hex' with hi0
    have hpi0 : ((c.sets σ).lines i0).is_valid = false := Nat.find_spec hex'
    have hlt : i0 < c.associativity := by
      obtain ⟨i, hin, hi⟩ := hex
      exact Nat.lt_of_le_of_lt (Nat.find_min' hex' hi) hin
    have hbefore : ∀ j, j < i0 → ((c.sets σ).lines j).is_valid = true := by
      intro j hj
      have := Nat.find_min hex' hj
      revert this
      cases ((c.sets σ).lines j).is_valid <;> simp
    have heq : find_lru_line_index c σ = i0 :=
      find_lru_go_first_invalid ((c.sets σ).lines) c.associativity 0 i0 (Nat.zero_le _)
        (by omega) hpi0 (fun j _ hj => hbefore j hj) 0 0
    rw [heq]
    exact ⟨hlt, hpi0, hbefore⟩
  · intro hall hpos
    exact find_lru_go_all_valid ((c.sets σ).lines) c.associativity c.associativity 0 0 0
      (by omega) hall hpos (by omega) (Nat.zero_le _) (by omega)

/-- Witness for C3: both branches applied on concrete sets - a set with an
invalid line 1 after one fill, and the fully valid set of the C6 scenario
after two stores. -/
theorem find_lru_line_index_spec_witness :
    ((∃ i, i < (engine_after two_way_32B_engine ⟨'s', 0x00, 1⟩).associativity ∧
        (((engine_after two_way_32B_engine ⟨'s', 0x00, 1⟩).sets 0).lines i).is_valid = false) ∧
      find_lru_line_index (engine_after two_way_32B_engine ⟨'s', 0x00, 1⟩) 0 <
          (engine_after two_way_32B_engine ⟨'s', 0x00, 1⟩).associativity ∧
        (((engine_after two_way_32B_engine ⟨'s', 0x00, 1⟩).sets 0).lines
            (find_lru_line_index (engine_after two_way_32B_engine ⟨'s', 0x00, 1⟩) 0)).is_valid =
          false ∧
        (∀ j, j < find_lru_line_index (engine_after two_way_32B_engine ⟨'s', 0x00, 1⟩) 0 →
          (((engine_after two_way_32B_engine ⟨'s', 0x00, 1⟩).sets 0).lines j).is_valid =
            true)) ∧
    ((∀ i, i < (engine_after (engine_after two_way_32B_engine ⟨'s', 0x00, 1⟩)
          ⟨'s', 0x10, 1⟩).associativity →
        (((engine_after (engine_after two_way_32B_engine ⟨'s', 0x00, 1⟩)
            ⟨'s', 0x10, 1⟩).sets 0).lines i).is_valid = true) ∧
      0 < (engine_after (engine_after two_way_32B_engine ⟨'s', 0x00, 1⟩)
          ⟨'s', 0x10, 1⟩).associativity ∧
      find_lru_line_index (engine_after (engine_after two_way_32B_engine ⟨'s', 0x00, 1⟩)
            ⟨'s', 0x10, 1⟩) 0 <
        (engine_after (engine_after two_way_32B_engine ⟨'s', 0x00, 1⟩)
          ⟨'s', 0x10, 1⟩).associativity ∧
      (∀ j, j < (engine_after (engine_after two_way_32B_engine ⟨'s', 0x00, 1⟩)
          ⟨'s', 0x10, 1⟩).associativity →
        (((engine_after (engine_after two_way_32B_engine ⟨'s', 0x00, 1⟩)
            ⟨'s', 0x10, 1⟩).sets 0).lines j).lru_order ≤
          (((engine_after (engine_after two_way_32B_engine ⟨'s', 0x00, 1⟩)
              ⟨'s', 0x10, 1⟩).sets 0).lines
            (find_lru_line_index (engine_after (engine_after two_way_32B_engine ⟨'s', 0x00, 1⟩)
              ⟨'s', 0x10, 1⟩) 0)).lru_order) ∧
      (∀ j, j < find_lru_line_index (engine_after (engine_after two_way_32B_engine
            ⟨'s', 0x00, 1⟩) ⟨'s', 0x10, 1⟩) 0 →
        (((engine_after (engine_after two_way_32B_engine ⟨'s', 0x00, 1⟩)
            ⟨'s', 0x10, 1⟩).sets 0).lines j).lru_order <
          (((engine_after (engine_after two_way_32B_engine ⟨'s', 0x00, 1⟩)
              ⟨'s', 0x10, 1⟩).sets 0).lines
            (find_lru_line_index (engine_after (engine_after two_way_32B_engine ⟨'s', 0x00, 1⟩)
              ⟨'s', 0x10, 1⟩) 0)).lru_order)) :=
  ⟨⟨⟨1, by decide, by decide⟩,
    (find_lru_line_index_spec (engine_after two_way_32B_engine ⟨'s', 0x00, 1⟩) 0).1
      ⟨1, by decide, by decide⟩⟩,
   by decide, by decide,
    (find_lru_line_index_spec
        (engine_after (engine_after two_way_32B_engine ⟨'s', 0x00, 1⟩) ⟨'s', 0x10, 1⟩) 0).2
      (by decide) (by decide)⟩

/-! ### C2: the recency ranks of the valid lines of every set are always a
dense permutation `{0, ..., k-1}`. -/

theorem set_inv_zero (L : Nat → CacheLine) : set_inv L 0 :=
  ⟨0, Nat.le_refl 0, fun j hj => absurd hj (by omega), fun i hi => absurd hi (by omega),
    fun j hj => absurd hj (by omega), fun j _ hj => absurd hj (by omega)⟩

/-- The recency-promotion update (the accessed or filled line goes to rank 0,
every line of the set with a strictly smaller rank is incremented) preserves
the per-set LRU invariant, for any target line that is valid. -/
theorem set_inv_promote (L L' : Nat → CacheLine) (n ii : Nat)
    (hvalid' : ∀ j, (L' j).is_valid = (L j).is_valid)
    (horder' : ∀ j, (L' j).lru_order =
      if j = ii then 0
      else if j < n ∧ (L j).lru_order < (L ii).lru_order then (L j).lru_order + 1
      else (L j).lru_order)
    (hinv : set_inv L n) (hii : ii < n) (hvalid : (L ii).is_valid = true) :
    set_inv L' n := by
  obtain ⟨k, hk, hval, hinj, hbound, htail⟩ := hinv
  have hiik : ii < k := (hval ii hii).mp hvalid
  have hr : (L ii).lru_order < k := hbound ii hiik
  refine ⟨k, hk, ?_, ?_, ?_, ?_⟩
  · intro j hj
    rw [hvalid' j]
    exact hval j hj
  · intro i₁ hi₁ j₁ hj₁ hne
    rw [horder' i₁, horder' j₁]
    by_cases h1 : i₁ = ii <;> by_cases h2 : j₁ = ii
    · exact absurd (h1.trans h2.symm) hne
    · rw [if_pos h1, if_neg h2]
      have hj₁ii : (L j₁).lru_order ≠ (L ii).lru_order := hinj j₁ hj₁ ii hiik h2
      have hj₁n : j₁ < n := by omega
      by_cases hc : (L j₁).lru_order < (L ii).lru_order
      · rw [if_pos ⟨hj₁n, hc⟩]; omega
      · rw [if_neg (by omega)]; omega
    · rw [if_neg h1, if_pos h2]
      have hi₁ii : (L i₁).lru_order ≠ (L ii).lru_order := hinj i₁ hi₁ ii hiik h1
      have hi₁n : i₁ < n := by omega
      by_cases hc : (L i₁).lru_order < (L ii).lru_order
      · rw [if_pos ⟨hi₁n, hc⟩]; omega
      · rw [if_neg (by omega)]; omega
    · rw [if_neg h1, if_neg h2]
      have hij : (L i₁).lru_order ≠ (L j₁).lru_order := hinj i₁ hi₁ j₁ hj₁ hne
      have hi₁ii : (L i₁).lru_order ≠ (L ii).lru_order := hinj i₁ hi₁ ii hiik h1
      have hj₁ii : (L j₁).lru_order ≠ (L ii).lru_order := hinj j₁ hj₁ ii hiik h2
      have hi₁n : i₁ < n := by omega
      have hj₁n : j₁ < n := by omega
      by_cases hc1 : (L i₁).lru_order < (L ii).lru_order <;>
        by_cases hc2 : (L j₁).lru_order < (L ii).lru_order
      · rw [if_pos ⟨hi₁n, hc1⟩, if_pos ⟨hj₁n, hc2⟩]; omega
      · rw [if_pos ⟨hi₁n, hc1⟩, if_neg (by omega)]; omega
      · rw [if_neg (by omega), if_pos ⟨hj₁n, hc2⟩]; omega
      · rw [if_neg (by omega), if_neg (by omega)]; omega
  · intro j hj
    rw [horder' j]
    by_cases h1 : j = ii
    · rw [if_pos h1]; omega
    · rw [if_neg h1]
      have hjb := hbound j hj
      by_cases hc : (L j).lru_order < (L ii).lru_order
      · rw [if_pos ⟨by omega, hc⟩]; omega
      · rw [if_neg (by omega)]; omega
  · intro j hjk hjn
    rw [horder' j]
    have h1 : j ≠ ii := by omega
    have hto := htail j hjk hjn
    rw [if_neg h1, if_neg (by omega)]
    exact hto

/-- The set-index decoded under an exact `log_num_sets` is always strictly
below `num_sets` (so the range check in `access_cache` never fires on a
well-formed cache). -/
theorem extract_set_index_lt (hwf : cache_wf c) (addr : Nat) :
    extract_set_index addr c < c.num_sets := by
  unfold extract_set_index
  split
  next h1 => omega
  next h1 =>
    rw [Nat.one_shiftLeft]
    have hle : (addr >>> c.log_line_size) &&& (2 ^ c.log_num_sets - 1) ≤
        2 ^ c.log_num_sets - 1 := Nat.and_le_right
    have hpos : 0 < 2 ^ c.log_num_sets := Nat.pos_pow_of_pos _ (by omega)
    unfold cache_wf at hwf
    omega

/-- The full miss update (fill the victim line, then promote it to rank 0)
preserves the per-set LRU invariant.  The victim `v` is characterised exactly
as `find_lru_line_index` guarantees: all lines before it are valid, and it is
either itself invalid or the whole set is valid. -/
theorem set_inv_miss_update (L L' : Nat → CacheLine) (n v : Nat)
    (hvalid' : ∀ j, (L' j).is_valid = if j = v then true else (L j).is_valid)
    (horder' : ∀ j, (L' j).lru_order =
      if j = v then 0
      else if j < n ∧ (L j).lru_order < (L v).lru_order then (L j).lru_order + 1
      else (L j).lru_order)
    (hinv : set_inv L n) (hvn : v < n)
    (hbefore : ∀ j, j < v → (L j).is_valid = true)
    (hcase : (L v).is_valid = false ∨ ∀ j, j < n → (L j).is_valid = true) :
    set_inv L' n := by
  obtain ⟨k, hk, hval, hinj, hbound, htail⟩ := hinv
  rcases hcase with hinvalid | hall
  · have hvk : v = k := by
      have h1 : ¬ v < k := fun h => by
        have h2 := (hval v hvn).mpr h
        rw [hinvalid] at h2
        exact Bool.noConfusion h2
      have h2 : ¬ k < v := fun h => by
        have hkv := hbefore k h
        have := (hval k (by omega)).mp hkv
        omega
      omega
    subst hvk
    have hordv : (L v).lru_order = v := htail v (Nat.le_refl v) (by omega)
    refine ⟨v + 1, by omega, ?_, ?_, ?_, ?_⟩
    · intro j hj
      rw [hvalid' j]
      by_cases hjk : j = v
      · rw [if_pos hjk]
        simp
        omega
      · rw [if_neg hjk, hval j hj]
        omega
    · intro i₁ hi₁ j₁ hj₁ hne
      rw [horder' i₁, horder' j₁]
      by_cases h1 : i₁ = v <;> by_cases h2 : j₁ = v
      · exact absurd (h1.trans h2.symm) hne
      · have hb2 : (L j₁).lru_order < v := hbound j₁ (by omega)
        rw [if_pos h1, if_neg h2, if_pos ⟨by omega, by omega⟩]
        omega
      · have hb1 : (L i₁).lru_order < v := hbound i₁ (by omega)
        rw [if_neg h1, if_pos h2, if_pos ⟨by omega, by omega⟩]
        omega
      · have hb1 : (L i₁).lru_order < v := hbound i₁ (by omega)
        have hb2 : (L j₁).lru_order < v := hbound j₁ (by omega)
        have hij := hinj i₁ (by omega) j₁ (by omega) hne
        rw [if_neg h1, if_neg h2, if_pos ⟨by omega, by omega⟩, if_pos ⟨by omega, by omega⟩]
        omega
    · intro j hj
      rw [horder' j]
      by_cases hjk : j = v
      · rw [if_pos hjk]
        omega
      · have hb : (L j).lru_order < v := hbound j (by omega)
        rw [if_neg hjk, if_pos ⟨by omega, by omega⟩]
        omega
    · intro j hjk hjn
      rw [horder' j]
      have h1 : j ≠ v := by omega
      have hto := htail j (by omega) hjn
      have hcond : ¬(j < n ∧ (L j).lru_order < (L v).lru_order) := by
        intro hc
        rw [hto, hordv] at hc
        omega
      rw [if_neg h1, if_neg hcond]
      exact hto
  · have hkn : k = n := by
      by_contra hne
      have hkltn : k < n := by omega
      have := (hval k hkltn).mp (hall k hkltn)
      omega
    refine set_inv_promote L L' n v ?_ horder' ⟨k, hk, hval, hinj, hbound, htail⟩ hvn (hall v hvn)
    intro j
    rw [hvalid' j]
    by_cases hj : j = v
    · rw [if_pos hj, hj]
      exact (hall v hvn).symm
    · rw [if_neg hj]

/-- One successful access preserves geometry well-formedness and the per-set
LRU invariant of every set, and on a well-formed cache the access always
succeeds. -/
theorem access_cache_preserves_inv (c : Cache) (op : CacheOp) (hwf : cache_wf c)
    (hinv : cache_inv c) :
    ∃ r c', access_cache c op = Except.ok (r, c') ∧ cache_wf c' ∧ cache_inv c' := by
  have hlt : extract_set_index op.address c < c.num_sets := extract_set_index_lt hwf op.address
  have hguard : ¬ c.num_sets < extract_set_index op.address c := by omega
  cases hhit : hit_index c (extract_set_index op.address c) (extract_tag_number op.address c) with
  | some i =>
    obtain ⟨hg1, hg2, hg3, hg4, _⟩ := hit_state_geometry (c := c) (b := op.access_type == 's')
      (σ := extract_set_index op.address c) (i := i)
    refine ⟨true, _, access_cache_of_hit hguard hhit, ?_, ?_⟩
    · unfold cache_wf at hwf ⊢
      rw [hg2, hg4]
      exact hwf
    · intro s
      rw [hg1]
      by_cases hs : s = extract_set_index op.address c
      · subst hs
        obtain ⟨hi, hvalid, _⟩ := hit_index_some hhit
        exact set_inv_promote _ _ c.associativity i (fun j => hit_state_line_valid)
          (fun j => hit_state_line_order) (hinv _) hi hvalid
      · rw [hit_state_sets_ne hs]
        exact hinv s
  | none =>
    obtain ⟨hg1, hg2, hg3, hg4, _⟩ := miss_state_geometry (c := c) (b := op.access_type == 's')
      (σ := extract_set_index op.address c) (τ := extract_tag_number op.address c)
    refine ⟨false, _, access_cache_of_miss hguard hhit, ?_, ?_⟩
    · unfold cache_wf at hwf ⊢
      rw [hg2, hg4]
      exact hwf
    · intro s
      rw [hg1]
      by_cases hs : s = extract_set_index op.address c
      · subst hs
        rcases Nat.eq_zero_or_pos c.associativity with hn0 | hnpos
        · rw [hn0]
          exact set_inv_zero _
        by_cases hex : ∃ i, i < c.associativity ∧
            ((c.sets (extract_set_index op.address c)).lines i).is_valid = false
        · obtain ⟨hvlt, hvinv, hvbefore⟩ :=
            (find_lru_line_index_spec c (extract_set_index op.address c)).1 hex
          exact set_inv_miss_update _ _ c.associativity
            (find_lru_line_index c (extract_set_index op.address c))
            (fun j => miss_state_line_valid rfl) (fun j => miss_state_line_order rfl)
            (hinv _) hvlt hvbefore (Or.inl hvinv)
        · have hall : ∀ j, j < c.associativity →
              ((c.sets (extract_set_index op.address c)).lines j).is_valid = true := by
            intro j hj
            cases hb : ((c.sets (extract_set_index op.address c)).lines j).is_valid
            · exact absurd ⟨j, hj, hb⟩ hex
            · rfl
          obtain ⟨hvlt, _, _⟩ :=
            (find_lru_line_index_spec c (extract_set_index op.address c)).2 hall hnpos
          exact set_inv_miss_update _ _ c.associativity
            (find_lru_line_index c (extract_set_index op.address c))
            (fun j => miss_state_line_valid rfl) (fun j => miss_state_line_order rfl)
            (hinv _) hvlt (fun j hj => hall j (by omega)) (Or.inr hall)
      · rw [miss_state_sets_ne hs]
        exact hinv s

theorem initialize_cache_sets (a cs ls mp dp s : Nat) :
    (initialize_cache a cs ls mp dp).sets s = ⟨fun j => initialize_cache_lines j⟩ := by
  unfold initialize_cache mk_cache
  split
  · rfl
  split <;> rfl

theorem set_inv_initialize_lines (n : Nat) : set_inv (fun j => initialize_cache_lines j) n :=
  ⟨0, Nat.zero_le _, fun j _ => by simp [initialize_cache_lines],
    fun i hi => absurd hi (by omega), fun j hj => absurd hj (by omega), fun j _ _ => rfl⟩

theorem initialize_cache_cache_inv (a cs ls mp dp : Nat) :
    cache_inv (initialize_cache a cs ls mp dp) := by
  intro s
  rw [initialize_cache_sets]
  exact set_inv_initialize_lines _

theorem simulate_cache_preserves_inv (ops : List CacheOp) :
    ∀ c, cache_wf c → cache_inv c →
      ∃ c', simulate_cache c ops = Except.ok c' ∧ cache_wf c' ∧ cache_inv c' := by
  induction ops with
  | nil => exact fun c hwf hinv => ⟨c, rfl, hwf, hinv⟩
  | cons op ops ih =>
    intro c hwf hinv
    obtain ⟨r, c₁, hacc, hwf₁, hinv₁⟩ := access_cache_preserves_inv c op hwf hinv
    obtain ⟨c', hrun, hwf', hinv'⟩ := ih c₁ hwf₁ hinv₁
    refine ⟨c', ?_, hwf', hinv'⟩
    simp only [simulate_cache, hacc]
    exact hrun

theorem range_filter_lt : ∀ (n k : Nat), k ≤ n →
    (List.range n).filter (fun j => decide (j < k)) = List.range k := by
  intro n
  induction n with
  | zero =>
    intro k hk
    have hk0 : k = 0 := by omega
    subst hk0
    rfl
  | succ n ih =>
    intro k hk
    rcases Nat.eq_or_lt_of_le hk with heq | hlt
    · subst heq
      apply List.filter_eq_self.mpr
      intro a ha
      simp [List.mem_range.mp ha]
    · rw [List.range_succ, List.filter_append, ih k (by omega)]
      have hnk : ¬ (n < k) := by omega
      simp [hnk]

theorem set_inv_perm {c : Cache} {s : Nat}
    (hinv : set_inv (c.sets s).lines c.associativity) :
    List.Perm (valid_line_orders c s) (List.range (valid_line_count c s)) := by
  obtain ⟨k, hk, hval, hinj, hbound, _⟩ := hinv
  have hfilter : (List.range c.associativity).filter
      (fun j => ((c.sets s).lines j).is_valid) = List.range k := by
    rw [List.filter_congr (q := fun j => decide (j < k)) ?_, range_filter_lt _ k hk]
    intro a ha
    have hv := hval a (List.mem_range.mp ha)
    cases hb : ((c.sets s).lines a).is_valid
    · have hnk : ¬ a < k := fun h => by
        rw [hv.mpr h] at hb
        exact Bool.noConfusion hb
      simp [hnk]
    · have hak := hv.mp hb
      simp [hak]
  unfold valid_line_orders valid_line_count
  rw [hfilter, List.length_range]
  have hnodup : ((List.range k).map (fun j => ((c.sets s).lines j).lru_order)).Nodup := by
    refine List.Nodup.map_on ?_ (List.nodup_range k)
    intro x hx y hy hxy
    by_contra hne
    exact hinj x (List.mem_range.mp hx) y (List.mem_range.mp hy) hne hxy
  have hsubset : ((List.range k).map (fun j => ((c.sets s).lines j).lru_order)) ⊆
      List.range k := by
    intro x hx
    obtain ⟨j, hj, rfl⟩ := List.mem_map.mp hx
    exact List.mem_range.mpr (hbound j (List.mem_range.mp hj))
  refine (List.subperm_of_subset hnodup hsubset).perm_of_length_le ?_
  simp

/-- C2: for every valid geometry and every access sequence, the replay
succeeds and afterwards (hence after construction and after each access,
every prefix being itself a quantified sequence) the recency ranks of the
valid lines of every set form exactly the dense set `{0, ..., k-1}`, `k`
being the number of valid lines of that set: no duplicates and no gaps. -/
theorem lru_ranks_dense_permutation :
    ∀ (a cs ls mp dp : Nat) (ops : List CacheOp),
      validate_args a ls cs mp dp = true →
      ∃ c', simulate_cache (initialize_cache a cs ls mp dp) ops = Except.ok c' ∧
        ∀ s, List.Perm (valid_line_orders c' s) (List.range (valid_line_count c' s)) := by
  intro a cs ls mp dp ops h
  obtain ⟨hwf0, _⟩ := initialize_cache_geometry h
  obtain ⟨c', hrun, _, hinv'⟩ :=
    simulate_cache_preserves_inv ops _ hwf0 (initialize_cache_cache_inv a cs ls mp dp)
  exact ⟨c', hrun, fun s => set_inv_perm (hinv' s)⟩

/-- Witness for C2: a 2-way 1 KB cache replaying a store, a load to another
set, and a repeated store. -/
theorem lru_ranks_dense_permutation_witness :
    validate_args 2 16 1 30 2 = true ∧
      ∃ c', simulate_cache (initialize_cache 2 1 16 30 2)
          [⟨'s', 0x00, 1⟩, ⟨'l', 0x40, 1⟩, ⟨'s', 0x00, 1⟩] = Except.ok c' ∧
        ∀ s, List.Perm (valid_line_orders c' s) (List.range (valid_line_count c' s)) :=
  ⟨by decide, lru_ranks_dense_permutation 2 1 16 30 2 _ (by decide)⟩

/-! ### C5: a dirty write-back happens exactly when the evicted block was
stored to while resident. -/

theorem dts_step (c : Cache) (op : CacheOp) (g : Nat → Nat → Bool) {r : Bool} {c' : Cache}
    (hdts : dirty_tracks_stored c g)
    (hok : access_cache c op = Except.ok (r, c')) :
    dirty_tracks_stored c' (stored_update c op g) := by
  obtain ⟨hguard, hcase⟩ := access_cache_ok hok
  rcases hcase with ⟨i, hhit, _, hc'⟩ | ⟨hmiss, _, hc'⟩
  · subst hc'
    have hupd : ∀ s j, stored_update c op g s j =
        if s = extract_set_index op.address c ∧ j = i then
          g s j || (op.access_type == 's')
        else g s j := by
      intro s j
      simp only [stored_update]
      rw [hhit]
    intro s j hvalid
    rw [hupd s j]
    by_cases hs : s = extract_set_index op.address c
    · subst hs
      rw [hit_state_line_valid] at hvalid
      by_cases hj : j = i
      · subst hj
        rw [hit_state_line_dirty]
        have hd := hdts _ _ hvalid
        cases hb : (op.access_type == 's') <;> simp [hb, hd]
      · rw [hit_state_line_dirty]
        rw [if_neg (by simp [hj]), if_neg (by simp [hj])]
        exact hdts _ _ hvalid
    · rw [hit_state_sets_ne hs] at hvalid ⊢
      rw [if_neg (by simp [hs])]
      exact hdts _ _ hvalid
  · subst hc'
    have hupd : ∀ s j, stored_update c op g s j =
        if s = extract_set_index op.address c ∧
            j = find_lru_line_index c (extract_set_index op.address c) then
          op.access_type == 's'
        else g s j := by
      intro s j
      simp only [stored_update]
      rw [hmiss]
    intro s j hvalid
    rw [hupd s j]
    by_cases hs : s = extract_set_index op.address c
    · subst hs
      rw [miss_state_line_valid rfl] at hvalid
      by_cases hj : j = find_lru_line_index c (extract_set_index op.address c)
      · subst hj
        rw [miss_state_line_dirty rfl, if_pos rfl, if_pos ⟨rfl, rfl⟩]
      · rw [miss_state_line_dirty rfl, if_neg hj]
        rw [if_neg hj] at hvalid
        rw [if_neg (by simp [hj])]
        exact hdts _ _ hvalid
    · rw [miss_state_sets_ne hs] at hvalid ⊢
      rw [if_neg (by simp [hs])]
      exact hdts _ _ hvalid

theorem ghost_run_dts (ops : List CacheOp) :
    ∀ (c : Cache) (g : Nat → Nat → Bool) (c' : Cache) (g' : Nat → Nat → Bool),
      dirty_tracks_stored c g → ghost_run c g ops = Except.ok (c', g') →
      dirty_tracks_stored c' g' ∧ simulate_cache c ops = Except.ok c' := by
  induction ops with
  | nil =>
    intro c g c' g' hd h
    simp only [ghost_run, Except.ok.injEq, Prod.mk.injEq] at h
    obtain ⟨h1, h2⟩ := h
    subst h1
    subst h2
    exact ⟨hd, rfl⟩
  | cons op ops ih =>
    intro c g c' g' hd h
    cases hacc : access_cache c op with
    | error e =>
      rw [ghost_run, hacc] at h
      simp at h
    | ok rc =>
      obtain ⟨r, c₁⟩ := rc
      rw [ghost_run, hacc] at h
      obtain ⟨hdts', hsim⟩ := ih c₁ (stored_update c op g) c' g' (dts_step c op g hd hacc) h
      refine ⟨hdts', ?_⟩
      simp only [simulate_cache, hacc]
      exact hsim

/-- C5: replay any access sequence on a freshly constructed engine, carrying
the ghost stored-while-resident flags (initially all false).  If the next
access is a miss whose victim line is valid (an eviction), the dirty
write-back counter is incremented exactly when the evicted line's resident
block was the target of at least one store while resident - on its filling
miss or on a hit - and is unchanged otherwise.  The ghost replay projects to
the plain replay, so `c'` is exactly the reachable engine state. -/
theorem dirty_write_back_iff_stored_while_resident :
    ∀ (a cs ls mp dp : Nat) (ops : List CacheOp) (op : CacheOp) (c' : Cache)
      (g' : Nat → Nat → Bool) (c'' : Cache),
      ghost_run (initialize_cache a cs ls mp dp) (fun _ _ => false) ops =
        Except.ok (c', g') →
      access_cache c' op = Except.ok (false, c'') →
      ((c'.sets (extract_set_index op.address c')).lines
        (find_lru_line_index c' (extract_set_index op.address c'))).is_valid = true →
      simulate_cache (initialize_cache a cs ls mp dp) ops = Except.ok c' ∧
      get_dirty_write_backs c'' = get_dirty_write_backs c' +
        (if g' (extract_set_index op.address c')
            (find_lru_line_index c' (extract_set_index op.address c')) = true then 1
          else 0) := by
  intro a cs ls mp dp ops op c' g' c'' hgr hacc hvalid
  have hdts0 : dirty_tracks_stored (initialize_cache a cs ls mp dp) (fun _ _ => false) := by
    intro s j hv
    rw [initialize_cache_sets] at hv
    exact absurd hv (by simp [initialize_cache_lines])
  obtain ⟨hdts, hsim⟩ := ghost_run_dts ops _ _ _ _ hdts0 hgr
  refine ⟨hsim, ?_⟩
  obtain ⟨hguard, hcase⟩ := access_cache_ok hacc
  rcases hcase with ⟨i, _, hr, _⟩ | ⟨hmiss, _, hc''⟩
  · exact absurd hr (by simp)
  · subst hc''
    rw [get_dirty_write_backs, get_dirty_write_backs, miss_state_stats]
    have hd := hdts _ _ hvalid
    rw [← hd]

/-- Witness for C5: on a direct-mapped 1 KB engine, `Store 0x0` fills set 0's
line dirty; a subsequent load of `0x10000` (same set, different tag) evicts
that valid, stored-to line, and the theorem yields `dirty_write_backs` going
from 0 to 1. -/
theorem dirty_write_back_iff_stored_while_resident_witness :
    ∃ (c' : Cache) (g' : Nat → Nat → Bool) (c'' : Cache),
      ghost_run (initialize_cache 1 1 16 30 2) (fun _ _ => false) [⟨'s', 0, 1⟩] =
        Except.ok (c', g') ∧
      access_cache c' ⟨'l', 0x10000, 1⟩ = Except.ok (false, c'') ∧
      ((c'.sets (extract_set_index 0x10000 c')).lines
        (find_lru_line_index c' (extract_set_index 0x10000 c'))).is_valid = true ∧
      (simulate_cache (initialize_cache 1 1 16 30 2) [⟨'s', 0, 1⟩] = Except.ok c' ∧
        get_dirty_write_backs c'' = get_dirty_write_backs c' +
          (if g' (extract_set_index 0x10000 c')
              (find_lru_line_index c' (extract_set_index 0x10000 c')) = true then 1
            else 0)) :=
  ⟨_, _, _, rfl, rfl, rfl,
    dirty_write_back_iff_stored_while_resident 1 1 16 30 2 [⟨'s', 0, 1⟩] ⟨'l', 0x10000, 1⟩
      _ _ _ rfl rfl rfl⟩

end CacheSim
